import Mathlib

/-!
# bumblebee `bee build` and the map monitor: a shallow embedding

Sources embedded here:

* `pkg/cli/internal/commands/build/build.go`: `build`, `getPlatformInfo`,
  `buildUber`, `buildDocker`, `buildLocal`;
* `pkg/printer/printer.go`: `Monitor.Watch`.

Go strings are modelled as lists of characters (`Str`).  Every call that
leaves the process (file system, subprocesses, OCI stores) is answered by an
environment `Env`; a run of `build` yields the list of those calls in program
order together with the error it returns.  Progress spinners and console
printing are not part of the model.
-/

namespace Bumblebee

/-- A Go `string`. -/
abbrev Str := List Char

/-- A Go `[]byte`. -/
abbrev Bytes := List (Fin 256)

/-- A Go `error` value; the code only ever passes it on. -/
abbrev GoError := Str

/-! ## Go standard library functions called by `build.go` -/

/-- The scan of `filepath.Ext`, from the last character towards the first:
`rev` is what is still to be visited (reversed), `suf` the suffix already
visited.  It stops at a path separator and returns the suffix that starts at
the first dot it meets. -/
def extScan : List Char → List Char → Str
  | [], _ => []
  | c :: rev, suf =>
    if c = '/' then [] else if c = '.' then c :: suf else extScan rev (c :: suf)

/-- Go `filepath.Ext` (Unix path separator): the suffix beginning at the final
dot in the final element of `path`; empty when there is no dot. -/
def filepathExt (path : Str) : Str := extScan path.reverse []

/-- Go `strings.TrimSuffix`. -/
def stringsTrimSuffix (s suffix : Str) : Str :=
  if suffix.isSuffixOf s then s.take (s.length - suffix.length) else s

/-- Go `strings.Split(s, sep)` for a separator of one character: the
substrings between the occurrences of `sep`, `cur` being the (reversed)
substring under way. -/
def splitAux (sep : Char) : List Char → List Char → List Str
  | [], cur => [cur.reverse]
  | c :: rest, cur =>
    if c = sep then cur.reverse :: splitAux sep rest [] else splitAux sep rest (c :: cur)

/-- Go `strings.Split(s, sep)` for a separator of one character. -/
def stringsSplit (s : Str) (sep : Char) : List Str := splitAux sep s []

/-- Go `unicode.IsSpace`: the Latin-1 white space characters and the rest of
the Unicode `White_Space` property. -/
def isSpace (c : Char) : Bool :=
  let n := c.toNat
  if n ≤ 0xFF then
    n = 0x09 || n = 0x0A || n = 0x0B || n = 0x0C || n = 0x0D || n = 0x20 || n = 0x85 || n = 0xA0
  else
    n = 0x1680 || (0x2000 ≤ n && n ≤ 0x200A) || n = 0x2028 || n = 0x2029 || n = 0x202F
      || n = 0x205F || n = 0x3000

/-- Go `strings.TrimSpace`: leading and trailing white space removed. -/
def stringsTrimSpace (s : Str) : Str := (s.dropWhile isSpace).rdropWhile isSpace

/-! ## Data of `build.go` -/

/-- Modelled from the spec: `options.GeneralOptions` is declared outside the
sources at hand; these are the two fields `build` reads, the root of the
target store and the verbosity. -/
structure GeneralOptions where
  OCIStorageDir : Str
  Verbose : Bool
  deriving DecidableEq, Repr

/-- The `buildOptions` struct. -/
structure BuildOptions where
  BuildImage : Str
  Builder : Str
  OutputFile : Str
  Local : Bool
  Uber : Bool
  BeeImage : Str
  BeeTag : Str
  UberImage : Str
  general : GeneralOptions
  deriving DecidableEq, Repr

/-- The `ocispec.Platform` fields that `getPlatformInfo` fills. -/
structure Platform where
  OS : Str
  OSVersion : Str
  Architecture : Str
  deriving DecidableEq, Repr

/-- Modelled from the spec: `spec.EbpfPackage` is declared outside the sources
at hand; it is the spec's Artifact, the compiled binary and an optional
platform, under the field names `build` uses.  A `nil` platform is `none`. -/
structure EbpfPackage where
  ProgramFileBytes : Bytes
  Platform : Option Platform
  deriving DecidableEq, Repr

/-- What `cmd.CombinedOutput()` returns: the captured output and the error. -/
structure ExecResult where
  out : Str
  err : Option GoError
  deriving DecidableEq, Repr

/-- The four places of `build.go` that start a subprocess. -/
inductive Site where
  | compileDocker
  | compileLocal
  | platformProbe
  | imageBuilder
  deriving DecidableEq, Repr

/-- The calls a run of `build` makes outside the process, with their
arguments. -/
inductive Event where
  /-- Call `os.Create(path)` -/
  | create (path : Str)
  /-- Call `os.Getwd()` -/
  | getwd
  /-- Call `shCmd.StdinPipe()` -/
  | stdinPipe
  /-- Call `exec.CommandContext(ctx, name, args...).CombinedOutput()`; `stdin` is
  what is written to the subprocess's standard input, if anything. -/
  | exec (site : Site) (name : Str) (args : List Str) (stdin : Option Str)
  /-- Call `outputFd.Close()` -/
  | close (path : Str)
  /-- Call `os.Open(path)` -/
  | osOpen (path : Str)
  /-- Call `ioutil.ReadAll` of the reopened file -/
  | readAll (path : Str)
  /-- Call `content.NewOCI(dir)` -/
  | newOCI (dir : Str)
  /-- Call `ebpfReg.Push(ctx, ref, reg, pkg)`, `store` being the root of `reg` -/
  | push (ref : Str) (store : Str) (pkg : EbpfPackage)
  /-- Call `os.MkdirTemp("", "bee_oci_store")` and the directory it made, if any -/
  | mkdirTemp (made : Option Str)
  /-- Call `os.Mkdir(path, 0755)` and whether it made the directory -/
  | mkdir (path : Str) (ok : Bool)
  /-- Call `oras.Copy` of `ref` from the store rooted at `src` to the one at `dst` -/
  | copy (src : Str) (ref : Str) (dst : Str)
  /-- Call `os.WriteFile(path, data, 0755)` -/
  | writeFile (path : Str) (data : Bytes)
  /-- Call `os.RemoveAll(path)` -/
  | removeAll (path : Str)
  deriving DecidableEq, Repr

/-- The answers of the outside world, and the two files bundled with the
binary (`builder.GetBuildScript()` and the embedded `Dockerfile-uber`). -/
structure Env where
  buildScript : Str
  uberDockerfile : Bytes
  create : Str → Option GoError
  getwd : Except GoError Str
  stdinPipe : Option GoError
  exec : Site → Str → List Str → Option Str → ExecResult
  osOpen : Str → Option GoError
  readAll : Str → Except GoError Bytes
  newOCI : Str → Option GoError
  push : Str → Str → EbpfPackage → Option GoError
  mkdirTemp : Option Str
  mkdir : Str → Option GoError
  copy : Str → Str → Str → Option GoError
  writeFile : Str → Bytes → Option GoError

/-- A run: the outside calls made, in order, and the error returned (`none`
for `nil`). -/
structure Run where
  trace : List Event
  err : Option GoError
  deriving DecidableEq, Repr

/-! ## The functions of `build.go` -/

/-- Function `getPlatformInfo`, as a function of what `uname -srm` returned. -/
def getPlatformInfo (r : ExecResult) : Option Platform :=
  match r.err with
  | some _ => none
  | none =>
    let splitOut := stringsSplit r.out ' '
    if splitOut.length ≠ 3 then none
    else some {
      OS := stringsTrimSpace (splitOut.getD 0 [])
      OSVersion := stringsTrimSpace (splitOut.getD 1 [])
      Architecture := stringsTrimSpace (splitOut.getD 2 []) }

/-- Function `buildUber`. -/
def buildUber (env : Env) (opts : BuildOptions)
    (ociImage beeImage beeTag tmpDir uberTag : Str) : Run :=
  let dockerArgs :=
    [ "build".toList,
      "--build-arg".toList,
      "BPF_IMAGE=".toList ++ ociImage,
      "--build-arg".toList,
      "BEE_IMAGE=".toList ++ beeImage,
      "--build-arg".toList,
      "BEE_TAG=".toList ++ beeTag,
      tmpDir,
      "-t".toList,
      uberTag ]
  { trace := [Event.exec Site.imageBuilder opts.Builder dockerArgs none]
    err := (env.exec Site.imageBuilder opts.Builder dockerArgs none).err }

/-- Function `buildDocker`. -/
def buildDocker (env : Env) (opts : BuildOptions) (inputFile outputFile : Str) : Run :=
  match env.getwd with
  | Except.error e => { trace := [Event.getwd], err := some e }
  | Except.ok wd =>
    let dockerArgs :=
      [ "run".toList, "-v".toList, wd ++ ":/usr/src/bpf".toList,
        opts.BuildImage, inputFile, outputFile ]
    { trace := [Event.getwd, Event.exec Site.compileDocker opts.Builder dockerArgs none]
      err := (env.exec Site.compileDocker opts.Builder dockerArgs none).err }

/-- Function `buildLocal`: the script goes to the shell's standard input. -/
def buildLocal (env : Env) (inputFile outputFile : Str) : Run :=
  match env.stdinPipe with
  | some e => { trace := [Event.stdinPipe], err := some e }
  | none =>
    let shArgs := ["-s".toList, "--".toList, inputFile, outputFile]
    { trace := [Event.stdinPipe,
        Event.exec Site.compileLocal "sh".toList shArgs (some env.buildScript)]
      err := (env.exec Site.compileLocal "sh".toList shArgs (some env.buildScript)).err }

/-- Lines 189-225 of `build`: what runs once `defer os.RemoveAll(tmpDir)` is
registered. -/
def uberAfterDefer (env : Env) (registryRef : Str) (opts : BuildOptions)
    (tmpDir tmpStore : Str) : Run :=
  let t1 := [Event.newOCI tmpStore]
  match env.newOCI tmpStore with
  | some e => { trace := t1, err := some e }
  | none =>
  let t2 := t1 ++ [Event.copy opts.general.OCIStorageDir registryRef tmpStore]
  match env.copy opts.general.OCIStorageDir registryRef tmpStore with
  | some e => { trace := t2, err := some e }
  | none =>
  let dockerfile := tmpDir ++ "/Dockerfile".toList
  let t3 := t2 ++ [Event.writeFile dockerfile env.uberDockerfile]
  match env.writeFile dockerfile env.uberDockerfile with
  | some e => { trace := t3, err := some e }
  | none =>
  let uberImage :=
    if opts.UberImage = [] then "bee-".toList ++ registryRef ++ ":latest".toList
    else opts.UberImage
  let b := buildUber env opts registryRef opts.BeeImage opts.BeeTag tmpDir uberImage
  { trace := t3 ++ b.trace, err := b.err }

/-- Lines 174-225 of `build`, the uber branch.  `os.MkdirTemp` returns the
empty string when it fails, and its error is dropped.  The deferred
`os.RemoveAll(tmpDir)` runs at every return that follows its `defer`
statement, and at none before it. -/
def uberBranch (env : Env) (registryRef : Str) (opts : BuildOptions) : Run :=
  let tmpDir := env.mkdirTemp.getD []
  let tmpStore := tmpDir ++ "/store".toList
  let t1 := [Event.mkdirTemp env.mkdirTemp, Event.mkdir tmpStore (env.mkdir tmpStore).isNone]
  match env.mkdir tmpStore with
  | some e => { trace := t1, err := some e }
  | none =>
  let r := uberAfterDefer env registryRef opts tmpDir tmpStore
  { trace := t1 ++ r.trace ++ [Event.removeAll tmpDir], err := r.err }

/-- The compile step of `build` (lines 113-129): one of the two strategies. -/
def compileStep (env : Env) (opts : BuildOptions) (inputFile outputFile : Str) : Run :=
  if opts.Local then buildLocal env inputFile outputFile
  else buildDocker env opts inputFile outputFile

/-- Lines 88-111 of `build`: the path handed to `os.Create`, taken from
`--output-file` or, when that is blank, derived from the input path. -/
def outputPath (opts : BuildOptions) (inputFile : Str) : Str :=
  if opts.OutputFile = [] then
    stringsTrimSuffix inputFile (filepathExt inputFile) ++ ".o".toList
  else opts.OutputFile

/-- Function `build`; `inputFile` is `args[0]` and `registryRef` is `args[1]` (the
command takes exactly two arguments).  `fn.Name()` is the path given to
`os.Create`. -/
def build (env : Env) (inputFile registryRef : Str) (opts : BuildOptions) : Run :=
  let filePath := outputPath opts inputFile
  let t1 := [Event.create filePath]
  match env.create filePath with
  | some e => { trace := t1, err := some e }
  | none =>
  let outputFile := filePath
  let c := compileStep env opts inputFile outputFile
  let t2 := t1 ++ c.trace
  match c.err with
  | some e => { trace := t2, err := some e }
  | none =>
  let t3 := t2 ++ [Event.close outputFile, Event.osOpen outputFile]
  match env.osOpen outputFile with
  | some e => { trace := t3, err := some e }
  | none =>
  let t4 := t3 ++ [Event.readAll outputFile]
  match env.readAll outputFile with
  | Except.error e => { trace := t4, err := some e }
  | Except.ok elfBytes =>
  let t5 := t4 ++ [Event.newOCI opts.general.OCIStorageDir]
  match env.newOCI opts.general.OCIStorageDir with
  | some e => { trace := t5, err := some e }
  | none =>
  let pkg : EbpfPackage :=
    { ProgramFileBytes := elfBytes
      Platform := getPlatformInfo (env.exec Site.platformProbe "uname".toList ["-srm".toList] none) }
  let t6 := t5 ++ [Event.exec Site.platformProbe "uname".toList ["-srm".toList] none,
    Event.push registryRef opts.general.OCIStorageDir pkg]
  match env.push registryRef opts.general.OCIStorageDir pkg with
  | some e => { trace := t6, err := some e }
  | none =>
  if !opts.Uber then { trace := t6, err := none }
  else
    let u := uberBranch env registryRef opts
    { trace := t6 ++ u.trace, err := u.err }

/-- An environment in which every outside call succeeds: the compiler writes
four bytes, `uname -srm` prints a Linux line, and the scratch directory is
`/tmp/bee_oci_store1`. -/
def okEnv : Env where
  buildScript := "clang -target bpf -c $1 -o $2".toList
  uberDockerfile := [70, 82, 79, 77]
  create := fun _ => none
  getwd := Except.ok "/work".toList
  stdinPipe := none
  exec := fun site _ _ _ =>
    match site with
    | Site.platformProbe => { out := "Linux 5.15.0 x86_64\n".toList, err := none }
    | _ => { out := [], err := none }
  osOpen := fun _ => none
  readAll := fun _ => Except.ok [127, 69, 76, 70]
  newOCI := fun _ => none
  push := fun _ _ _ => none
  mkdirTemp := some "/tmp/bee_oci_store1".toList
  mkdir := fun _ => none
  copy := fun _ _ _ => none
  writeFile := fun _ _ => none

/-- Options as the flags default them, with the version string `v0`. -/
def defaultOpts : BuildOptions where
  BuildImage := "ghcr.io/solo-io/bumblebee/builder:v0".toList
  Builder := "docker".toList
  OutputFile := []
  Local := false
  Uber := false
  BeeImage := "ghcr.io/solo-io/bumblebee/bee".toList
  BeeTag := "v0".toList
  UberImage := []
  general := { OCIStorageDir := "/store".toList, Verbose := false }

/-- The default options with `--uber`. -/
def uberOpts : BuildOptions := { defaultOpts with Uber := true }

/-! ## Reading a run -/

/-- The effect of one call on the set of scratch directories that exist.
`os.RemoveAll` removes the path and everything beneath it, and does nothing
for the empty path. -/
def fsStep (dirs : List Str) : Event → List Str
  | Event.mkdirTemp (some d) => d :: dirs
  | Event.mkdir p true => p :: dirs
  | Event.removeAll p =>
    if p = [] then dirs
    else dirs.filter (fun d => !(d = p || (p ++ "/".toList).isPrefixOf d))
  | _ => dirs

/-- The scratch directories that exist after the calls of a run, none existing
before it. -/
def dirsAfter (trace : List Event) : List Str := trace.foldl fsStep []

/-- Whether a call belongs to a stage of `build` that follows the compile step:
reading the output back, the target store, the platform probe, the push and
the whole uber branch. -/
def Event.afterCompile : Event → Bool
  | Event.create _ => false
  | Event.getwd => false
  | Event.stdinPipe => false
  | Event.exec Site.compileDocker _ _ _ => false
  | Event.exec Site.compileLocal _ _ _ => false
  | _ => true

/-- The maximal runs of non-white-space characters of a string, in order: the
tokens of a white-space-separated line. -/
def whitespaceTokens (s : Str) : List Str :=
  (s.splitOnP isSpace).filter (fun t => !t.isEmpty)

/-- The environment `okEnv` with a full disk: `os.Mkdir` fails. -/
def mkdirFailsEnv : Env :=
  { okEnv with mkdir := fun _ => some "mkdir: no space left on device".toList }

/-- The environment `okEnv` with a compiler that leaves the output file
empty. -/
def emptyOutputEnv : Env :=
  { okEnv with readAll := fun _ => Except.ok [] }

/-- The environment `okEnv` with a compiler process that exits non-zero, in
the container and in the local shell alike. -/
def compileFailsEnv : Env :=
  { okEnv with
    exec := fun site _ _ _ =>
      match site with
      | Site.compileDocker => { out := "foo.c:1: error".toList, err := some "exit status 1".toList }
      | Site.compileLocal => { out := "foo.c:1: error".toList, err := some "exit status 1".toList }
      | _ => { out := [], err := none } }

/-- The environment `okEnv` on a host without `uname`: the probe fails. -/
def probeFailsEnv : Env :=
  { okEnv with
    exec := fun site _ _ _ =>
      match site with
      | Site.platformProbe =>
        { out := "uname: executable file not found in $PATH".toList,
          err := some "exec: not found".toList }
      | _ => { out := [], err := none } }

/-! ## `printer.go` -/

/-- Modelled from the spec: the declaration of `version.KvPair` is not among
the sources and the spec leaves it open; its fields are the two that `Watch`
reads.  `Key` is a Go `map[string]string`, listed here in the order in which a
`range` over it yields its entries (any order, the keys distinct); `Value` is
a string. -/
structure KvPair where
  Key : List (Str × Str)
  Value : Str
  deriving DecidableEq, Repr

/-- Modelled from the spec: the declaration of `version.MapEntries` is not
among the sources either; `Watch` reads its `Name` and its `Entries`. -/
structure MapEntries where
  Name : Str
  Entries : List KvPair
  deriving DecidableEq, Repr

/-- The Go map index `m[k]` on a `map[string]string`: the value stored under
`k`, the empty string when there is none. -/
def mapIndex : List (Str × Str) → Str → Str
  | [], _ => []
  | (k', v) :: m, k => if k' = k then v else mapIndex m k

/-- Go `sort.Strings`: the strings in increasing order.  Go compares strings
byte by byte, which on UTF-8 text is the order of the code points. -/
def sortStrings (l : List Str) : List Str := l.insertionSort (fun a b => a ≤ b)

/-- The text colours `Watch` uses. -/
inductive CellColor where
  | primary
  | yellow
  deriving DecidableEq, Repr

/-- A `tview.TableCell`, reduced to what `Watch` sets. -/
structure TableCell where
  Text : Str
  Expansion : Nat
  Color : CellColor
  deriving DecidableEq, Repr

/-- Cell made by
`tview.NewTableCell(text).SetExpansion(1).SetTextColor(tcell.ColorYellow)`,
that of the header row. -/
def headerCell (text : Str) : TableCell :=
  { Text := text, Expansion := 1, Color := CellColor.yellow }

/-- Cell made by `tview.NewTableCell(text).SetExpansion(1)`, that of an entry
row. -/
def entryCell (text : Str) : TableCell :=
  { Text := text, Expansion := 1, Color := CellColor.primary }

/-- A `tview.Table` as the cell, if any, at every row and column. -/
abbrev Table := Nat → Nat → Option TableCell

/-- Go `tview.NewTable()`: no cell anywhere. -/
def newTable : Table := fun _ _ => none

/-- Go `table.SetCell(row, column, cell)`. -/
def SetCell (t : Table) (row column : Nat) (cell : TableCell) : Table :=
  fun r c => if r = row ∧ c = column then some cell else t r c

/-- The `MapValue` struct; a `nil` table is `none`. -/
structure MapValue where
  Hash : Nat
  Entries : List KvPair
  Table : Option Table

/-- The global `mapOfMaps`; a name without entry yields the zero `MapValue`. -/
abbrev MapOfMaps := Str → MapValue

/-- The loops `for i, k := range keyStructKeys` of `Watch` (lines 90-94 and
107-111): the cell made from each key goes to column `i` of `row`, and the
counter `c` is incremented once per key.  `i` is the index of the next key. -/
def rangeKeys (row : Nat) (cellOf : Str → TableCell) :
    List Str → Nat → Nat → Table → Table × Nat
  | [], _, c, t => (t, c)
  | k :: ks, i, c, t => rangeKeys row cellOf ks (i + 1) (c + 1) (SetCell t row i (cellOf k))

/-- The loop `for r, entry := range newMapVal.Entries` of `Watch` (lines
102-114); `r` is the index of the next entry, and its row is `r + 1`. -/
def renderRows (keyStructKeys : List Str) : List KvPair → Nat → Table → Table
  | [], _, t => t
  | entry :: es, r, t =>
    let row := r + 1
    let ekMap := entry.Key
    let eVal := entry.Value
    let tc := rangeKeys row (fun kv => entryCell (mapIndex ekMap kv)) keyStructKeys 0 0 t
    renderRows keyStructKeys es (r + 1) (SetCell tc.1 row tc.2 (entryCell eVal))

/-- One iteration of the loop of `Monitor.Watch`, for the update `r`; `hash`
is `hashstructure.Hash`.  `none` is a run-time panic: `r.Entries[0]` on an
empty slice, or `SetCell` on a `nil` table.  The table is held by pointer, so
the cells set are those of the table stored in `mapOfMaps`. -/
def watchStep (hash : List KvPair → Nat) (mapOfMaps : MapOfMaps) (r : MapEntries) :
    Option MapOfMaps :=
  let current := mapOfMaps r.Name
  let newPrintHash := hash r.Entries
  if current.Hash = newPrintHash then some mapOfMaps
  else
    let newMapVal : MapValue := { current with Entries := r.Entries, Hash := newPrintHash }
    match r.Entries with
    | [] => none
    | entry :: _ =>
      let theekMap := entry.Key
      let keyStructKeys := sortStrings (theekMap.map Prod.fst)
      match newMapVal.Table with
      | none => none
      | some table =>
        let hc := rangeKeys 0 headerCell keyStructKeys 0 0 table
        let table1 := SetCell hc.1 0 hc.2 (headerCell "value".toList)
        let table2 := renderRows keyStructKeys newMapVal.Entries 0 table1
        some (fun name =>
          if name = r.Name then { newMapVal with Table := some table2 } else mapOfMaps name)

/-- Function `Monitor.Watch` over the updates received from the channel, in
order. -/
def watch (hash : List KvPair → Nat) : MapOfMaps → List MapEntries → Option MapOfMaps
  | m, [] => some m
  | m, r :: rs =>
    match watchStep hash m r with
    | none => none
    | some m' => watch hash m' rs

/-- The map of maps after `NewHashMap` has registered a table for every
name. -/
def freshMaps : MapOfMaps := fun _ => { Hash := 0, Entries := [], Table := some newTable }

/-- An update of the map `hits` with two entries, whose key struct has the
fields `pid` and `comm`, met in two different orders. -/
def hitsUpdate : MapEntries :=
  { Name := "hits".toList
    Entries :=
      [ { Key := [("pid".toList, "42".toList), ("comm".toList, "curl".toList)]
          Value := "7".toList },
        { Key := [("comm".toList, "sshd".toList), ("pid".toList, "1".toList)]
          Value := "3".toList } ] }

/-- The paths that the `os.Create` calls of a run have truncated (or created
empty), a file being named by its path: those on which the call succeeded. -/
def truncatedPaths (env : Env) : List Event → List Str
  | [] => []
  | Event.create p :: rest =>
    if env.create p = none then p :: truncatedPaths env rest else truncatedPaths env rest
  | _ :: rest => truncatedPaths env rest

/-! ## `probe.pb.equal.go` -/

/-- Modelled from the spec: `ProbeSpec` is generated into a file outside the
sources at hand and the spec leaves it open; these are the three fields
`Equal` reads through its getters.  `NodeSelector` is a Go
`map[string]string`, listed in the order in which a `range` over it yields its
entries (any order, the keys distinct); the pull policy is a value compared
with `!=`, here a number. -/
structure ProbeSpec where
  Image : Str
  NodeSelector : List (Str × Str)
  ImagePullPolicy : Int
  deriving DecidableEq, Repr

/-- What the argument `that interface{}` of `Equal` can hold: nothing, a
`*ProbeSpec` (a `nil` pointer is `none`), a `ProbeSpec`, or a value of another
type. -/
inductive That where
  | nilInterface
  | pointer (p : Option ProbeSpec)
  | value (v : ProbeSpec)
  | other
  deriving DecidableEq, Repr

/-- Go `strings.Compare`: 0 for equal strings, -1 when `a` sorts first, 1
otherwise. -/
def stringsCompare (a b : Str) : Int :=
  if a = b then 0 else if a < b then -1 else 1

/-- The loop `for k, v := range m.GetNodeSelector()` of `Equal` (lines 56-62),
over the entries of the receiver's map: `false` when the loop returns false,
`true` when it runs to its end. -/
def selectorLoop (target : List (Str × Str)) : List (Str × Str) → Bool
  | [] => true
  | (k, v) :: rest =>
    if stringsCompare v (mapIndex target k) ≠ 0 then false
    else selectorLoop target rest

/-- Lines 43-68 of `Equal`, once `target` is known; `none` is a `nil`
pointer. -/
def equalTarget (m target : Option ProbeSpec) : Bool :=
  match target, m with
  | none, _ => m.isNone
  | some _, none => false
  | some target, some m =>
    if stringsCompare m.Image target.Image ≠ 0 then false
    else if m.NodeSelector.length ≠ target.NodeSelector.length then false
    else if selectorLoop target.NodeSelector m.NodeSelector = false then false
    else if m.ImagePullPolicy ≠ target.ImagePullPolicy then false
    else true

/-- Function `ProbeSpec.Equal`, on the receiver `m` (`none` for `nil`). -/
def ProbeSpec.Equal (m : Option ProbeSpec) (that : That) : Bool :=
  match that with
  | That.nilInterface => m.isNone
  | That.pointer target => equalTarget m target
  | That.value that2 => equalTarget m (some that2)
  | That.other => false

/-- Two node selectors that are equal as maps: the same keys, each mapped to
the same value. -/
def sameMap (a b : List (Str × Str)) : Prop :=
  (∀ k, k ∈ a.map Prod.fst ↔ k ∈ b.map Prod.fst) ∧
  ∀ k ∈ a.map Prod.fst, mapIndex a k = mapIndex b k

/-- A probe that selects the nodes whose label `zone` is empty. -/
def zoneProbe : ProbeSpec :=
  { Image := "ghcr.io/solo-io/probe:v1".toList
    NodeSelector := [("zone".toList, [])]
    ImagePullPolicy := 0 }

/-- A probe that selects the nodes whose label `tier` is `db`. -/
def tierProbe : ProbeSpec :=
  { Image := "ghcr.io/solo-io/probe:v1".toList
    NodeSelector := [("tier".toList, "db".toList)]
    ImagePullPolicy := 0 }

/-! ## Shared facts about the runs of `build` -/

/-- An image-builder invocation in a run of `build` is the one `buildUber`
makes: it needs `--uber`, follows the push of `R`, and carries the argument
list built from `R`, `--bee-image`, `--bee-tag`, the scratch directory and the
chosen tag. -/
theorem imageBuilder_mem_build (env : Env) (inputFile R : Str) (opts : BuildOptions)
    (name : Str) (args : List Str) (stdin : Option Str)
    (h : Event.exec Site.imageBuilder name args stdin ∈ (build env inputFile R opts).trace) :
    opts.Uber = true ∧ name = opts.Builder ∧ stdin = none ∧
    args = [ "build".toList, "--build-arg".toList, "BPF_IMAGE=".toList ++ R,
      "--build-arg".toList, "BEE_IMAGE=".toList ++ opts.BeeImage,
      "--build-arg".toList, "BEE_TAG=".toList ++ opts.BeeTag,
      env.mkdirTemp.getD [], "-t".toList,
      if opts.UberImage = [] then "bee-".toList ++ R ++ ":latest".toList else opts.UberImage ] ∧
    ∃ pkg, Event.push R opts.general.OCIStorageDir pkg ∈ (build env inputFile R opts).trace ∧
      env.push R opts.general.OCIStorageDir pkg = none := by
  unfold build at h ⊢
  simp only [compileStep, buildLocal, buildDocker, uberBranch, uberAfterDefer, buildUber] at h ⊢
  repeat' split at h
  all_goals simp_all

/-- A run of `build` with `--uber` that returns no error has invoked the image
builder. -/
theorem build_ok_uber_invokes (env : Env) (inputFile R : Str) (opts : BuildOptions)
    (hUber : opts.Uber = true) (hOk : (build env inputFile R opts).err = none) :
    ∃ args, Event.exec Site.imageBuilder opts.Builder args none ∈
      (build env inputFile R opts).trace := by
  unfold build at hOk ⊢
  simp only [compileStep, buildLocal, buildDocker, uberBranch, uberAfterDefer, buildUber] at hOk ⊢
  repeat' split at hOk
  all_goals simp_all

/-! ## C1: the default uber tag -/

/-- C1: in a run of `build` for the registry reference `R`, the destination tag
handed to the image builder (the last argument, after `-t`) is
`"bee-" ++ R ++ ":latest"` when `--uber-image` is empty and the `--uber-image`
value unchanged otherwise; a successful `--uber` run does hand a tag to the
builder; and two runs with the same `R` and no override, whatever else differs,
hand over the same tag. -/
theorem build_uber_tag (env env' : Env) (inputFile inputFile' R : Str)
    (opts opts' : BuildOptions) :
    (∀ name args stdin,
      Event.exec Site.imageBuilder name args stdin ∈ (build env inputFile R opts).trace →
        (opts.UberImage = [] →
          args.getLast? = some ("bee-".toList ++ R ++ ":latest".toList)) ∧
        (opts.UberImage ≠ [] → args.getLast? = some opts.UberImage)) ∧
    (opts.Uber = true → (build env inputFile R opts).err = none →
      ∃ args, Event.exec Site.imageBuilder opts.Builder args none ∈
        (build env inputFile R opts).trace) ∧
    (opts.UberImage = [] → opts'.UberImage = [] →
      ∀ name args stdin name' args' stdin',
        Event.exec Site.imageBuilder name args stdin ∈ (build env inputFile R opts).trace →
        Event.exec Site.imageBuilder name' args' stdin' ∈
          (build env' inputFile' R opts').trace →
        args.getLast? = args'.getLast?) := by
  refine ⟨?_, build_ok_uber_invokes env inputFile R opts, ?_⟩
  · intro name args stdin h
    obtain ⟨-, -, -, hargs, -⟩ := imageBuilder_mem_build env inputFile R opts name args stdin h
    constructor
    · intro hU
      simp [hargs, hU]
    · intro hU
      simp [hargs, hU]
  · intro hU hU' name args stdin name' args' stdin' h h'
    obtain ⟨-, -, -, hargs, -⟩ := imageBuilder_mem_build env inputFile R opts name args stdin h
    obtain ⟨-, -, -, hargs', -⟩ :=
      imageBuilder_mem_build env' inputFile' R opts' name' args' stdin' h'
    simp [hargs, hargs', hU, hU']

/-- C1 at `bee build foo.c local/foo:v1 --uber`: the builder is invoked and
the tag it receives is `bee-local/foo:v1:latest`. -/
theorem build_uber_tag_witness :
    Event.exec Site.imageBuilder "docker".toList
        [ "build".toList, "--build-arg".toList, "BPF_IMAGE=local/foo:v1".toList,
          "--build-arg".toList, "BEE_IMAGE=ghcr.io/solo-io/bumblebee/bee".toList,
          "--build-arg".toList, "BEE_TAG=v0".toList, "/tmp/bee_oci_store1".toList,
          "-t".toList, "bee-local/foo:v1:latest".toList ] none ∈
      (build okEnv "foo.c".toList "local/foo:v1".toList uberOpts).trace ∧
    List.getLast?
        [ "build".toList, "--build-arg".toList, "BPF_IMAGE=local/foo:v1".toList,
          "--build-arg".toList, "BEE_IMAGE=ghcr.io/solo-io/bumblebee/bee".toList,
          "--build-arg".toList, "BEE_TAG=v0".toList, "/tmp/bee_oci_store1".toList,
          "-t".toList, "bee-local/foo:v1:latest".toList ] =
      some ("bee-".toList ++ "local/foo:v1".toList ++ ":latest".toList) :=
  ⟨by decide,
   ((build_uber_tag okEnv okEnv "foo.c".toList "foo.c".toList "local/foo:v1".toList
      uberOpts uberOpts).1 "docker".toList _ none (by decide)).1 (by decide)⟩

/-! ## C2: the arguments of the image builder -/

/-- C2: `buildUber` runs the configured builder executable once, with the
argument list `build --build-arg BPF_IMAGE=R --build-arg BEE_IMAGE=B
--build-arg BEE_TAG=T D -t U`; and every image-builder invocation of `build` is
that call with `R` the registry reference, which `Push` has stored without
error, `B` and `T` the `--bee-image` and `--bee-tag` options, `D` the scratch
directory of `os.MkdirTemp` and `U` the chosen uber tag. -/
theorem buildUber_args (env : Env) (opts : BuildOptions) (inputFile R B T D U : Str) :
    (buildUber env opts R B T D U).trace =
      [ Event.exec Site.imageBuilder opts.Builder
          [ "build".toList, "--build-arg".toList, "BPF_IMAGE=".toList ++ R,
            "--build-arg".toList, "BEE_IMAGE=".toList ++ B,
            "--build-arg".toList, "BEE_TAG=".toList ++ T, D, "-t".toList, U ] none ] ∧
    (∀ name args stdin,
      Event.exec Site.imageBuilder name args stdin ∈ (build env inputFile R opts).trace →
        name = opts.Builder ∧
        args = [ "build".toList, "--build-arg".toList, "BPF_IMAGE=".toList ++ R,
          "--build-arg".toList, "BEE_IMAGE=".toList ++ opts.BeeImage,
          "--build-arg".toList, "BEE_TAG=".toList ++ opts.BeeTag,
          env.mkdirTemp.getD [], "-t".toList,
          if opts.UberImage = [] then "bee-".toList ++ R ++ ":latest".toList
          else opts.UberImage ] ∧
        ∃ pkg, Event.push R opts.general.OCIStorageDir pkg ∈
            (build env inputFile R opts).trace ∧
          env.push R opts.general.OCIStorageDir pkg = none) ∧
    (opts.Uber = true → (build env inputFile R opts).err = none →
      ∃ args, Event.exec Site.imageBuilder opts.Builder args none ∈
        (build env inputFile R opts).trace) := by
  refine ⟨rfl, ?_, build_ok_uber_invokes env inputFile R opts⟩
  intro name args stdin h
  obtain ⟨-, hname, -, hargs, hpush⟩ :=
    imageBuilder_mem_build env inputFile R opts name args stdin h
  exact ⟨hname, hargs, hpush⟩

/-- C2 at `bee build foo.c local/foo:v1 --uber --uber-image me/img:1`: a
successful run has invoked the builder. -/
theorem buildUber_args_witness :
    ∃ args, Event.exec Site.imageBuilder "docker".toList args none ∈
      (build okEnv "foo.c".toList "local/foo:v1".toList
        { uberOpts with UberImage := "me/img:1".toList }).trace :=
  (buildUber_args okEnv { uberOpts with UberImage := "me/img:1".toList } "foo.c".toList
    "local/foo:v1".toList [] [] [] []).2.2 (by decide) (by decide)

/-- Once `os.Mkdir` has made the store directory, every return of the uber
branch is followed by the deferred `os.RemoveAll(tmpDir)`. -/
theorem uberBranch_removes (env : Env) (R : Str) (opts : BuildOptions)
    (hMk : env.mkdir (env.mkdirTemp.getD [] ++ "/store".toList) = none) :
    ∃ pre, (uberBranch env R opts).trace =
      pre ++ [Event.removeAll (env.mkdirTemp.getD [])] := by
  unfold uberBranch
  simp only [hMk]
  exact ⟨_, rfl⟩

/-- The calls made after the `defer` statement leave the set of scratch
directories as it is. -/
theorem dirs_uberAfterDefer (env : Env) (R : Str) (opts : BuildOptions) (D S : Str)
    (dirs : List Str) :
    (uberAfterDefer env R opts D S).trace.foldl fsStep dirs = dirs := by
  unfold uberAfterDefer
  simp only [buildUber]
  repeat' split
  all_goals simp [fsStep]

/-- When `os.MkdirTemp` and `os.Mkdir` both succeed, the uber branch leaves no
scratch directory behind, whichever later step fails. -/
theorem uberBranch_cleans (env : Env) (R : Str) (opts : BuildOptions) (d : Str)
    (hTmp : env.mkdirTemp = some d) (hd : d ≠ [])
    (hMk : env.mkdir (d ++ "/store".toList) = none) :
    dirsAfter (uberBranch env R opts).trace = [] := by
  unfold uberBranch dirsAfter
  simp only [hTmp, Option.getD_some, hMk]
  simp [fsStep, dirs_uberAfterDefer, hd]

/-! ## C3: the scratch directory on the exit paths -/

/-- C3 at the failing run: `bee build foo.c local/foo:v1 --uber` where
`os.MkdirTemp` makes `/tmp/bee_oci_store1` and `os.Mkdir` of the store
directory beneath it fails.  `build` returns the error of `os.Mkdir`, no
`os.RemoveAll` is among its calls, and the scratch directory still exists. -/
theorem build_mkdir_failure_leaves_tmpDir :
    (build mkdirFailsEnv "foo.c".toList "local/foo:v1".toList uberOpts).err =
      some "mkdir: no space left on device".toList ∧
    Event.mkdirTemp (some "/tmp/bee_oci_store1".toList) ∈
      (build mkdirFailsEnv "foo.c".toList "local/foo:v1".toList uberOpts).trace ∧
    Event.removeAll "/tmp/bee_oci_store1".toList ∉
      (build mkdirFailsEnv "foo.c".toList "local/foo:v1".toList uberOpts).trace ∧
    dirsAfter (build mkdirFailsEnv "foo.c".toList "local/foo:v1".toList uberOpts).trace =
      ["/tmp/bee_oci_store1".toList] := by
  decide

/-- When the output file is created, compiled, reopened and read and the
target store opens, `build` calls `Push` once, with the bytes read and the
platform of the probe, and without `--uber` it returns what `Push` returns. -/
theorem build_reaches_push (env : Env) (inputFile R : Str) (opts : BuildOptions)
    (bytes : Bytes)
    (hCreate : env.create (outputPath opts inputFile) = none)
    (hCompile : (compileStep env opts inputFile (outputPath opts inputFile)).err = none)
    (hOpen : env.osOpen (outputPath opts inputFile) = none)
    (hRead : env.readAll (outputPath opts inputFile) = Except.ok bytes)
    (hOCI : env.newOCI opts.general.OCIStorageDir = none) :
    Event.push R opts.general.OCIStorageDir
        { ProgramFileBytes := bytes
          Platform := getPlatformInfo
            (env.exec Site.platformProbe "uname".toList ["-srm".toList] none) } ∈
      (build env inputFile R opts).trace ∧
    (∀ ref store pkg, Event.push ref store pkg ∈ (build env inputFile R opts).trace →
      pkg = { ProgramFileBytes := bytes
              Platform := getPlatformInfo
                (env.exec Site.platformProbe "uname".toList ["-srm".toList] none) }) ∧
    (∀ e, env.push R opts.general.OCIStorageDir
        { ProgramFileBytes := bytes
          Platform := getPlatformInfo
            (env.exec Site.platformProbe "uname".toList ["-srm".toList] none) } = some e →
      (build env inputFile R opts).err = some e) ∧
    (env.push R opts.general.OCIStorageDir
        { ProgramFileBytes := bytes
          Platform := getPlatformInfo
            (env.exec Site.platformProbe "uname".toList ["-srm".toList] none) } = none →
      opts.Uber = false → (build env inputFile R opts).err = none) := by
  unfold build
  simp only [hCreate, hCompile, hOpen, hRead, hOCI]
  refine ⟨?_, ?_, ?_, ?_⟩
  · split <;> simp
    split <;> simp
  · intro ref store pkg h
    simp only [compileStep, buildLocal, buildDocker, uberBranch, uberAfterDefer, buildUber] at h
    repeat' split at h
    all_goals simp_all
  · intro e he
    rw [he]
  · intro hp hU
    rw [hp]
    simp [hU]

/-- Once the output file is created, the run starts with `os.Create` and the
calls of the compile step. -/
theorem build_trace_compile (env : Env) (inputFile R : Str) (opts : BuildOptions)
    (hCreate : env.create (outputPath opts inputFile) = none) :
    Event.create (outputPath opts inputFile) ::
        (compileStep env opts inputFile (outputPath opts inputFile)).trace <+:
      (build env inputFile R opts).trace := by
  unfold build
  simp only [hCreate]
  repeat' split
  all_goals simp

/-- The compile step starts the compiler unless `os.Getwd` (container) or
`StdinPipe` (local shell) fails first. -/
theorem compileStep_invokes (env : Env) (opts : BuildOptions) (inputFile outputFile : Str)
    (hL : opts.Local = true → env.stdinPipe = none)
    (hD : opts.Local = false → ∃ wd, env.getwd = Except.ok wd) :
    ∃ site name args stdin, (site = Site.compileDocker ∨ site = Site.compileLocal) ∧
      Event.exec site name args stdin ∈ (compileStep env opts inputFile outputFile).trace := by
  unfold compileStep
  cases hLoc : opts.Local
  · obtain ⟨wd, hwd⟩ := hD hLoc
    refine ⟨Site.compileDocker, opts.Builder,
      [ "run".toList, "-v".toList, wd ++ ":/usr/src/bpf".toList,
        opts.BuildImage, inputFile, outputFile ], none, Or.inl rfl, ?_⟩
    simp only [buildDocker, hwd, Bool.false_eq_true, if_false]
    exact List.mem_cons_of_mem _ (List.mem_singleton.2 rfl)
  · have hp := hL hLoc
    refine ⟨Site.compileLocal, "sh".toList,
      ["-s".toList, "--".toList, inputFile, outputFile], some env.buildScript, Or.inr rfl, ?_⟩
    simp only [buildLocal, hp, if_true]
    exact List.mem_cons_of_mem _ (List.mem_singleton.2 rfl)

/-! ## C4: a zero-length output file -/

/-- C4 as stated fails: with a compiler that reports success and leaves the
output file empty, `build` invokes `Push` with empty `ProgramFileBytes` and
returns no error. -/
theorem build_pushes_zero_length_binary :
    (build emptyOutputEnv "foo.c".toList "local/foo:v1".toList defaultOpts).err = none ∧
    Event.push "local/foo:v1".toList "/store".toList
        { ProgramFileBytes := []
          Platform := some { OS := "Linux".toList, OSVersion := "5.15.0".toList,
                             Architecture := "x86_64".toList } } ∈
      (build emptyOutputEnv "foo.c".toList "local/foo:v1".toList defaultOpts).trace := by
  decide

/-- C4 amended: when compilation reports success and the output file read back
has zero bytes (the file is created, reopened and read and the target store is
opened without error), `build` makes no length check of its own: it invokes
`Push` with the empty `ProgramFileBytes`, it returns an error whenever `Push`
returns one, and without `--uber` it returns no error when `Push` returns
none. -/
theorem build_zero_length_goes_to_push (env : Env) (inputFile R : Str)
    (opts : BuildOptions)
    (hCreate : env.create (outputPath opts inputFile) = none)
    (hCompile : (compileStep env opts inputFile (outputPath opts inputFile)).err = none)
    (hOpen : env.osOpen (outputPath opts inputFile) = none)
    (hRead : env.readAll (outputPath opts inputFile) = Except.ok [])
    (hOCI : env.newOCI opts.general.OCIStorageDir = none) :
    (∃ pkg, pkg.ProgramFileBytes = [] ∧
      Event.push R opts.general.OCIStorageDir pkg ∈ (build env inputFile R opts).trace ∧
      (∀ e, env.push R opts.general.OCIStorageDir pkg = some e →
        (build env inputFile R opts).err = some e) ∧
      (env.push R opts.general.OCIStorageDir pkg = none → opts.Uber = false →
        (build env inputFile R opts).err = none)) ∧
    (∀ ref store pkg, Event.push ref store pkg ∈ (build env inputFile R opts).trace →
      pkg.ProgramFileBytes = []) := by
  obtain ⟨hmem, honly, herr, hok⟩ :=
    build_reaches_push env inputFile R opts [] hCreate hCompile hOpen hRead hOCI
  refine ⟨⟨_, rfl, hmem, herr, hok⟩, ?_⟩
  intro ref store pkg h
  rw [honly ref store pkg h]

/-- C4 amended, at `bee build foo.c local/foo:v1` with an empty output file. -/
theorem build_zero_length_goes_to_push_witness :
    (∃ pkg : EbpfPackage, pkg.ProgramFileBytes = [] ∧
      Event.push "local/foo:v1".toList defaultOpts.general.OCIStorageDir pkg ∈
        (build emptyOutputEnv "foo.c".toList "local/foo:v1".toList defaultOpts).trace ∧
      (∀ e, emptyOutputEnv.push "local/foo:v1".toList defaultOpts.general.OCIStorageDir pkg
          = some e →
        (build emptyOutputEnv "foo.c".toList "local/foo:v1".toList defaultOpts).err = some e) ∧
      (emptyOutputEnv.push "local/foo:v1".toList defaultOpts.general.OCIStorageDir pkg = none →
        defaultOpts.Uber = false →
        (build emptyOutputEnv "foo.c".toList "local/foo:v1".toList defaultOpts).err = none)) ∧
    (∀ ref store pkg,
      Event.push ref store pkg ∈
        (build emptyOutputEnv "foo.c".toList "local/foo:v1".toList defaultOpts).trace →
      pkg.ProgramFileBytes = []) :=
  build_zero_length_goes_to_push emptyOutputEnv "foo.c".toList "local/foo:v1".toList
    defaultOpts (by decide) (by decide) (by decide) rfl (by decide)

/-! ## C5: a failed compile step ends the run -/

/-- C5: with either strategy, when the output file has been created and the
compile step returns an error, `build` returns that error and its calls are
the `os.Create` and those of the compile step, none of which belongs to a
later stage: no read-back, no store, no platform probe, no `Push`, no scratch
store, copy or image builder. -/
theorem build_compile_failure (env : Env) (inputFile R : Str) (opts : BuildOptions)
    (e : GoError)
    (hCreate : env.create (outputPath opts inputFile) = none)
    (hFail : (compileStep env opts inputFile (outputPath opts inputFile)).err = some e) :
    (build env inputFile R opts).err = some e ∧
    (build env inputFile R opts).trace =
      Event.create (outputPath opts inputFile) ::
        (compileStep env opts inputFile (outputPath opts inputFile)).trace ∧
    ∀ ev ∈ (build env inputFile R opts).trace, ev.afterCompile = false := by
  have hb : build env inputFile R opts =
      { trace := Event.create (outputPath opts inputFile) ::
          (compileStep env opts inputFile (outputPath opts inputFile)).trace
        err := some e } := by
    unfold build
    simp only [hCreate, hFail]
    rfl
  rw [hb]
  refine ⟨rfl, rfl, ?_⟩
  intro ev hev
  simp only [compileStep, buildLocal, buildDocker] at hev
  repeat' split at hev
  all_goals simp at hev
  all_goals
    first
    | (rcases hev with h | h | h <;> simp [h, Event.afterCompile])
    | (rcases hev with h | h <;> simp [h, Event.afterCompile])

/-- C5 at a container compiler and at a local compiler that exit non-zero. -/
theorem build_compile_failure_witness :
    ((build compileFailsEnv "foo.c".toList "local/foo:v1".toList uberOpts).err =
        some "exit status 1".toList ∧
      (build compileFailsEnv "foo.c".toList "local/foo:v1".toList uberOpts).trace =
        Event.create (outputPath uberOpts "foo.c".toList) ::
          (compileStep compileFailsEnv uberOpts "foo.c".toList
            (outputPath uberOpts "foo.c".toList)).trace ∧
      ∀ ev ∈ (build compileFailsEnv "foo.c".toList "local/foo:v1".toList uberOpts).trace,
        ev.afterCompile = false) ∧
    (build compileFailsEnv "foo.c".toList "local/foo:v1".toList
        { uberOpts with Local := true }).trace =
      [ Event.create "foo.o".toList, Event.stdinPipe,
        Event.exec Site.compileLocal "sh".toList
          ["-s".toList, "--".toList, "foo.c".toList, "foo.o".toList]
          (some compileFailsEnv.buildScript) ] :=
  ⟨build_compile_failure compileFailsEnv "foo.c".toList "local/foo:v1".toList uberOpts
      "exit status 1".toList (by decide) (by decide),
   by decide⟩

/-! ## Facts about the string functions -/

/-- Splitting runs over a stretch without the separator by collecting it. -/
theorem splitAux_append (sep : Char) (a rest cur : List Char) (h : sep ∉ a) :
    splitAux sep (a ++ rest) cur = splitAux sep rest (a.reverse ++ cur) := by
  induction a generalizing cur with
  | nil => rfl
  | cons c a ih =>
    have hc : c ≠ sep := fun hc => h (by simp [hc])
    have ha : sep ∉ a := fun ha => h (by simp [ha])
    simp [splitAux, hc, ih _ ha]

/-- The number of parts of a split is one more than the number of
separators. -/
theorem length_splitAux (sep : Char) (s cur : List Char) :
    (splitAux sep s cur).length = s.count sep + 1 := by
  induction s generalizing cur with
  | nil => rfl
  | cons c s ih =>
    by_cases hc : c = sep
    · simp [splitAux, hc, ih]
    · simp [splitAux, hc, ih, List.count_cons, beq_iff_eq]

/-- A string splits into exactly three parts when it holds exactly two
separators. -/
theorem length_stringsSplit (s : Str) (sep : Char) :
    (stringsSplit s sep).length = s.count sep + 1 :=
  length_splitAux sep s []

/-- Three space-free parts joined by single spaces split back into them. -/
theorem stringsSplit_three (a b c : List Char) (ha : ' ' ∉ a) (hb : ' ' ∉ b)
    (hc : ' ' ∉ c) :
    stringsSplit (a ++ ' ' :: (b ++ ' ' :: c)) ' ' = [a, b, c] := by
  unfold stringsSplit
  rw [splitAux_append _ _ _ _ ha]
  simp only [splitAux, if_true]
  rw [splitAux_append _ _ _ _ hb]
  simp only [splitAux, if_true]
  have := splitAux_append ' ' c [] [] hc
  simp only [List.append_nil] at this
  rw [this]
  simp [splitAux]

/-- Trimming leaves a string without white space as it is. -/
theorem stringsTrimSpace_token (t : List Char) (h : ∀ c ∈ t, isSpace c = false) :
    stringsTrimSpace t = t := by
  unfold stringsTrimSpace
  have h1 : t.dropWhile isSpace = t := by
    cases t with
    | nil => rfl
    | cons c t => simp [List.dropWhile, h c (by simp)]
  rw [h1, List.rdropWhile_eq_self_iff]
  intro hl
  simp [h _ (List.getLast_mem hl)]

/-- Trimming removes the newline that ends a string without white space. -/
theorem stringsTrimSpace_token_newline (t : List Char)
    (h : ∀ c ∈ t, isSpace c = false) :
    stringsTrimSpace (t ++ ['\n']) = t := by
  have hn : isSpace '\n' = true := by decide
  unfold stringsTrimSpace
  cases t with
  | nil => simp [List.dropWhile, hn, List.rdropWhile]
  | cons c t =>
    have h1 : (c :: t ++ ['\n']).dropWhile isSpace = (c :: t) ++ ['\n'] := by
      simp [List.dropWhile, h c (by simp)]
    rw [h1, List.rdropWhile_concat_pos _ _ _ hn]
    have := stringsTrimSpace_token (c :: t) h
    unfold stringsTrimSpace at this
    have h2 : (c :: t).dropWhile isSpace = c :: t := by
      simp [List.dropWhile, h c (by simp)]
    rw [h2] at this
    exact this

/-- The scan of `filepath.Ext` returns a suffix of what it has visited. -/
theorem extScan_suffix (rev suf : List Char) :
    extScan rev suf <:+ rev.reverse ++ suf := by
  induction rev generalizing suf with
  | nil => simp [extScan]
  | cons c rev ih =>
    unfold extScan
    split
    · exact List.nil_suffix
    · split
      · simp
      · have := ih (c :: suf)
        simpa using this

/-- The extension is a suffix of the path. -/
theorem filepathExt_suffix (path : Str) : filepathExt path <:+ path := by
  have := extScan_suffix path.reverse []
  simpa [filepathExt] using this

/-- Trimming a suffix that is there leaves what precedes it. -/
theorem stringsTrimSuffix_append (stem suffix : Str) :
    stringsTrimSuffix (stem ++ suffix) suffix = stem := by
  unfold stringsTrimSuffix
  have : suffix.isSuffixOf (stem ++ suffix) = true := by
    rw [List.isSuffixOf_iff_suffix]; exact List.suffix_append _ _
  simp [this]

/-- When `getPlatformInfo` returns `nil`: the probe failed, or its output does
not split at single spaces into three parts. -/
theorem getPlatformInfo_eq_none_iff (r : ExecResult) :
    getPlatformInfo r = none ↔
      (r.err ≠ none ∨ (stringsSplit r.out ' ').length ≠ 3) := by
  unfold getPlatformInfo
  cases h : r.err with
  | some e => simp
  | none =>
    by_cases hl : (stringsSplit r.out ' ').length = 3
    · simp [hl]
    · simp [hl]

/-! ## C6: a well-formed probe line -/

/-- C6 as stated fails: the line `Linux<TAB>5.15.0 x86_64` consists of the
three tokens `Linux`, `5.15.0` and `x86_64`, separated by white space and ended
by a newline, and `getPlatformInfo` returns `nil` for it. -/
theorem getPlatformInfo_tab_separated :
    whitespaceTokens "Linux\t5.15.0 x86_64\n".toList =
      ["Linux".toList, "5.15.0".toList, "x86_64".toList] ∧
    getPlatformInfo { out := "Linux\t5.15.0 x86_64\n".toList, err := none } = none := by
  decide

/-- C6 amended: for a successful probe whose output is one line of three
non-empty tokens `os`, `ver`, `arch`, none containing white space, each
separated from the next by exactly one space character and ended by a newline,
`getPlatformInfo` returns the platform with `OS = os`, `OSVersion = ver` and
`Architecture = arch`, no white space or newline around any field. -/
theorem getPlatformInfo_single_spaces (os ver arch : Str)
    (_hos : os ≠ []) (_hver : ver ≠ []) (_harch : arch ≠ [])
    (hns : ∀ c ∈ os ++ ver ++ arch, isSpace c = false) :
    getPlatformInfo
        { out := os ++ " ".toList ++ ver ++ " ".toList ++ arch ++ "\n".toList, err := none } =
      some { OS := os, OSVersion := ver, Architecture := arch } := by
  have hsp : isSpace ' ' = true := by decide
  have h1 : ∀ c ∈ os, isSpace c = false := fun c hc => hns c (by simp [hc])
  have h2 : ∀ c ∈ ver, isSpace c = false := fun c hc => hns c (by simp [hc])
  have h3 : ∀ c ∈ arch, isSpace c = false := fun c hc => hns c (by simp [hc])
  have n1 : ' ' ∉ os := fun h => by simp [h1 _ h] at hsp
  have n2 : ' ' ∉ ver := fun h => by simp [h2 _ h] at hsp
  have n3 : ' ' ∉ arch ++ ['\n'] := by
    intro h
    rcases List.mem_append.1 h with h | h
    · simp [h3 _ h] at hsp
    · simp at h
  have hout : os ++ " ".toList ++ ver ++ " ".toList ++ arch ++ "\n".toList =
      os ++ ' ' :: (ver ++ ' ' :: (arch ++ ['\n'])) := by
    simp
  have hsplit := stringsSplit_three os ver (arch ++ ['\n']) n1 n2 n3
  unfold getPlatformInfo
  simp only [hout, hsplit]
  simp [stringsTrimSpace_token _ h1, stringsTrimSpace_token _ h2,
    stringsTrimSpace_token_newline _ h3]

/-- C6 amended, at the line `Linux 5.15.0 x86_64`. -/
theorem getPlatformInfo_single_spaces_witness :
    getPlatformInfo
        { out := "Linux".toList ++ " ".toList ++ "5.15.0".toList ++ " ".toList ++
            "x86_64".toList ++ "\n".toList, err := none } =
      some { OS := "Linux".toList, OSVersion := "5.15.0".toList,
             Architecture := "x86_64".toList } :=
  getPlatformInfo_single_spaces "Linux".toList "5.15.0".toList "x86_64".toList
    (by decide) (by decide) (by decide) (by decide)

/-! ## C7: an unusable probe -/

/-- C7 as stated fails: the line `Linux  x86_64` (two spaces) consists of two
tokens, not three, and `getPlatformInfo` returns for it a platform whose
`OSVersion` is empty. -/
theorem getPlatformInfo_two_tokens :
    whitespaceTokens "Linux  x86_64\n".toList = ["Linux".toList, "x86_64".toList] ∧
    getPlatformInfo { out := "Linux  x86_64\n".toList, err := none } =
      some { OS := "Linux".toList, OSVersion := [], Architecture := "x86_64".toList } := by
  decide

/-- C7 amended: when the probe fails, or succeeds with an output that does not
split at single space characters into exactly three parts, `getPlatformInfo`
returns `nil`, and `build` (once the output file is created, compiled,
reopened and read and the target store is open) still calls `Push`, with the
bytes read and no platform; every `Push` of the run is without platform, and
the run returns what `Push` returns (no error, without `--uber`, when `Push`
returns none). -/
theorem build_probe_unusable (env : Env) (inputFile R : Str) (opts : BuildOptions)
    (bytes : Bytes)
    (hCreate : env.create (outputPath opts inputFile) = none)
    (hCompile : (compileStep env opts inputFile (outputPath opts inputFile)).err = none)
    (hOpen : env.osOpen (outputPath opts inputFile) = none)
    (hRead : env.readAll (outputPath opts inputFile) = Except.ok bytes)
    (hOCI : env.newOCI opts.general.OCIStorageDir = none)
    (hProbe : (env.exec Site.platformProbe "uname".toList ["-srm".toList] none).err ≠ none ∨
      (stringsSplit (env.exec Site.platformProbe "uname".toList ["-srm".toList] none).out
        ' ').length ≠ 3) :
    getPlatformInfo (env.exec Site.platformProbe "uname".toList ["-srm".toList] none) = none ∧
    Event.push R opts.general.OCIStorageDir { ProgramFileBytes := bytes, Platform := none } ∈
      (build env inputFile R opts).trace ∧
    (∀ ref store pkg, Event.push ref store pkg ∈ (build env inputFile R opts).trace →
      pkg.Platform = none) ∧
    (∀ e, env.push R opts.general.OCIStorageDir
        { ProgramFileBytes := bytes, Platform := none } = some e →
      (build env inputFile R opts).err = some e) ∧
    (env.push R opts.general.OCIStorageDir
        { ProgramFileBytes := bytes, Platform := none } = none →
      opts.Uber = false → (build env inputFile R opts).err = none) := by
  have hnone := (getPlatformInfo_eq_none_iff _).2 hProbe
  obtain ⟨hmem, honly, herr, hok⟩ :=
    build_reaches_push env inputFile R opts bytes hCreate hCompile hOpen hRead hOCI
  rw [hnone] at hmem honly herr hok
  refine ⟨hnone, hmem, ?_, herr, hok⟩
  intro ref store pkg h
  rw [honly ref store pkg h]

/-- C7 amended, on a host without `uname`. -/
theorem build_probe_unusable_witness :
    getPlatformInfo
      (probeFailsEnv.exec Site.platformProbe "uname".toList ["-srm".toList] none) = none ∧
    Event.push "local/foo:v1".toList defaultOpts.general.OCIStorageDir
        { ProgramFileBytes := [127, 69, 76, 70], Platform := none } ∈
      (build probeFailsEnv "foo.c".toList "local/foo:v1".toList defaultOpts).trace ∧
    (∀ ref store pkg,
      Event.push ref store pkg ∈
        (build probeFailsEnv "foo.c".toList "local/foo:v1".toList defaultOpts).trace →
      pkg.Platform = none) ∧
    (∀ e, probeFailsEnv.push "local/foo:v1".toList defaultOpts.general.OCIStorageDir
        { ProgramFileBytes := [127, 69, 76, 70], Platform := none } = some e →
      (build probeFailsEnv "foo.c".toList "local/foo:v1".toList defaultOpts).err = some e) ∧
    (probeFailsEnv.push "local/foo:v1".toList defaultOpts.general.OCIStorageDir
        { ProgramFileBytes := [127, 69, 76, 70], Platform := none } = none →
      defaultOpts.Uber = false →
      (build probeFailsEnv "foo.c".toList "local/foo:v1".toList defaultOpts).err = none) :=
  build_probe_unusable probeFailsEnv "foo.c".toList "local/foo:v1".toList defaultOpts
    [127, 69, 76, 70] (by decide) (by decide) (by decide) rfl (by decide)
    (Or.inl (by decide))

/-! ## C8: the output path -/

/-- C8: with `--output-file` blank the output path is the input path with its
`filepath.Ext` extension removed and `.o` appended (so a path without extension
gets `.o` appended); with `--output-file` given it is that path; and it is this
path that `build` creates, first of all, and hands to the compiler as the
argument after the input path, in the container and in the local shell. -/
theorem build_output_path (env : Env) (inputFile R : Str) (opts : BuildOptions) :
    (opts.OutputFile = [] →
      ∃ stem, inputFile = stem ++ filepathExt inputFile ∧
        outputPath opts inputFile = stem ++ ".o".toList) ∧
    (opts.OutputFile = [] → filepathExt inputFile = [] →
      outputPath opts inputFile = inputFile ++ ".o".toList) ∧
    (opts.OutputFile ≠ [] → outputPath opts inputFile = opts.OutputFile) ∧
    (build env inputFile R opts).trace.head? =
      some (Event.create (outputPath opts inputFile)) ∧
    (∀ path, Event.create path ∈ (build env inputFile R opts).trace →
      path = outputPath opts inputFile) ∧
    (∀ name args stdin,
      Event.exec Site.compileDocker name args stdin ∈ (build env inputFile R opts).trace ∨
      Event.exec Site.compileLocal name args stdin ∈ (build env inputFile R opts).trace →
        ∃ pre, args = pre ++ [inputFile, outputPath opts inputFile]) ∧
    (env.create (outputPath opts inputFile) = none →
      (opts.Local = true → env.stdinPipe = none) →
      (opts.Local = false → ∃ wd, env.getwd = Except.ok wd) →
      ∃ site name args stdin, (site = Site.compileDocker ∨ site = Site.compileLocal) ∧
        Event.exec site name args stdin ∈ (build env inputFile R opts).trace) := by
  have hstem : opts.OutputFile = [] →
      ∃ stem, inputFile = stem ++ filepathExt inputFile ∧
        outputPath opts inputFile = stem ++ ".o".toList := by
    intro hO
    obtain ⟨stem, hstem⟩ := filepathExt_suffix inputFile
    refine ⟨stem, hstem.symm, ?_⟩
    have htrim : stringsTrimSuffix inputFile (filepathExt inputFile) = stem := by
      have := stringsTrimSuffix_append stem (filepathExt inputFile)
      rwa [hstem] at this
    unfold outputPath
    rw [if_pos hO, htrim]
  refine ⟨hstem, ?_, ?_, ?_, ?_, ?_, ?_⟩
  · intro hO hE
    obtain ⟨stem, h1, h2⟩ := hstem hO
    rw [hE, List.append_nil] at h1
    rw [h2, h1]
  · intro hO
    unfold outputPath
    rw [if_neg hO]
  · unfold build
    simp only []
    repeat' split
    all_goals rfl
  · intro path h
    unfold build at h
    simp only [compileStep, buildLocal, buildDocker, uberBranch, uberAfterDefer, buildUber] at h
    repeat' split at h
    all_goals simp_all
  · intro name args stdin h
    unfold build at h
    simp only [compileStep, buildLocal, buildDocker, uberBranch, uberAfterDefer, buildUber] at h
    repeat' split at h
    all_goals simp_all
    all_goals first
      | exact ⟨[_, _], rfl⟩
      | exact ⟨[_, _, _, _], rfl⟩
  · intro hC hL hD
    have hpre := build_trace_compile env inputFile R opts hC
    obtain ⟨site, name, args, stdin, hsite, hmem⟩ :=
      compileStep_invokes env opts inputFile (outputPath opts inputFile) hL hD
    exact ⟨site, name, args, stdin, hsite, hpre.subset (List.mem_cons_of_mem _ hmem)⟩

/-- C8 at `foo.c`, whose output path is `foo.o`, at `Makefile`, whose output
path is `Makefile.o`, and at `--output-file out/prog.o`. -/
theorem build_output_path_witness :
    (∃ stem, "foo.c".toList = stem ++ filepathExt "foo.c".toList ∧
      outputPath defaultOpts "foo.c".toList = stem ++ ".o".toList) ∧
    outputPath defaultOpts "foo.c".toList = "foo.o".toList ∧
    outputPath defaultOpts "Makefile".toList = "Makefile".toList ++ ".o".toList ∧
    outputPath { defaultOpts with OutputFile := "out/prog.o".toList } "foo.c".toList =
      "out/prog.o".toList :=
  ⟨(build_output_path okEnv "foo.c".toList "local/foo:v1".toList defaultOpts).1 (by decide),
   by decide,
   (build_output_path okEnv "Makefile".toList "local/foo:v1".toList defaultOpts).2.1
     (by decide) (by decide),
   (build_output_path okEnv "foo.c".toList "local/foo:v1".toList
     { defaultOpts with OutputFile := "out/prog.o".toList }).2.2.1 (by decide)⟩

/-! ## Facts about the table loops -/

/-- The counter after a loop over the keys has advanced by their number. -/
theorem rangeKeys_snd (row : Nat) (f : Str → TableCell) (ks : List Str) (i c : Nat)
    (t : Table) : (rangeKeys row f ks i c t).2 = c + ks.length := by
  induction ks generalizing i c t with
  | nil => rfl
  | cons k ks ih =>
    simp only [rangeKeys, ih, List.length_cons]
    omega

/-- A loop over the keys leaves the other rows, and the columns before its
first index, as they are. -/
theorem rangeKeys_frame (row : Nat) (f : Str → TableCell) (ks : List Str) (i c : Nat)
    (t : Table) (r col : Nat) (h : r ≠ row ∨ col < i) :
    (rangeKeys row f ks i c t).1 r col = t r col := by
  induction ks generalizing i c t with
  | nil => rfl
  | cons k ks ih =>
    simp only [rangeKeys]
    rw [ih (i + 1) (c + 1) _ (by omega)]
    unfold SetCell
    rw [if_neg]
    omega

/-- A loop over the keys puts the cell of the `j`-th key in column `i + j`. -/
theorem rangeKeys_cell (row : Nat) (f : Str → TableCell) (ks : List Str) (i c : Nat)
    (t : Table) (j : Nat) (hj : j < ks.length) :
    (rangeKeys row f ks i c t).1 row (i + j) = some (f ks[j]) := by
  induction ks generalizing i c t j with
  | nil => simp at hj
  | cons k ks ih =>
    simp only [rangeKeys]
    cases j with
    | zero =>
      rw [rangeKeys_frame row f ks (i + 1) (c + 1) _ row (i + 0) (by omega)]
      simp [SetCell]
    | succ j =>
      have := ih (i + 1) (c + 1) (SetCell t row i (f k)) j (by simpa using hj)
      rw [show i + (j + 1) = i + 1 + j by omega]
      simpa using this

/-- A loop over the keys depends on the cell function at the keys only. -/
theorem rangeKeys_congr (row : Nat) (f g : Str → TableCell) (ks : List Str) (i c : Nat)
    (t : Table) (h : ∀ k ∈ ks, f k = g k) :
    rangeKeys row f ks i c t = rangeKeys row g ks i c t := by
  induction ks generalizing i c t with
  | nil => rfl
  | cons k ks ih =>
    simp only [rangeKeys]
    rw [h k (by simp), ih _ _ _ (fun k' hk' => h k' (by simp [hk']))]

/-- The loop over the entries leaves the rows up to its first index as they
are. -/
theorem renderRows_frame (ks : List Str) (es : List KvPair) (r0 : Nat) (t : Table)
    (r col : Nat) (h : r ≤ r0) :
    (renderRows ks es r0 t) r col = t r col := by
  induction es generalizing r0 t with
  | nil => rfl
  | cons e es ih =>
    simp only [renderRows]
    rw [ih (r0 + 1) _ (by omega)]
    unfold SetCell
    rw [if_neg (by omega)]
    exact rangeKeys_frame _ _ _ _ _ _ _ _ (Or.inl (by omega))

/-- The loop over the entries fills row `r0 + i + 1` from the `i`-th entry: its
key values under the keys, in their order, then its value. -/
theorem renderRows_cell (ks : List Str) (es : List KvPair) (r0 : Nat) (t : Table)
    (i : Nat) (hi : i < es.length) :
    (∀ j (hj : j < ks.length),
      (renderRows ks es r0 t) (r0 + i + 1) j = some (entryCell (mapIndex es[i].Key ks[j]))) ∧
    (renderRows ks es r0 t) (r0 + i + 1) ks.length = some (entryCell es[i].Value) := by
  induction es generalizing r0 t i with
  | nil => simp at hi
  | cons e es ih =>
    cases i with
    | zero =>
      simp only [renderRows]
      constructor
      · intro j hj
        rw [renderRows_frame _ _ _ _ _ _ (by omega)]
        unfold SetCell
        rw [if_neg (by rw [rangeKeys_snd]; omega)]
        have := rangeKeys_cell (r0 + 1) (fun kv => entryCell (mapIndex e.Key kv)) ks 0 0 t j hj
        simpa using this
      · rw [renderRows_frame _ _ _ _ _ _ (by omega)]
        unfold SetCell
        rw [if_pos (by rw [rangeKeys_snd]; omega)]
        rfl
    | succ i =>
      simp only [renderRows]
      have := ih (r0 + 1) (SetCell
        (rangeKeys (r0 + 1) (fun kv => entryCell (mapIndex e.Key kv)) ks 0 0 t).1 (r0 + 1)
        (rangeKeys (r0 + 1) (fun kv => entryCell (mapIndex e.Key kv)) ks 0 0 t).2
        (entryCell e.Value)) i (by simpa using hi)
      rw [show r0 + (i + 1) + 1 = r0 + 1 + i + 1 by omega]
      simpa using this

/-- The loop over the entries depends on the key maps through their values
only, not through the order of their entries. -/
theorem renderRows_congr (ks : List Str) (es es' : List KvPair) (r0 : Nat) (t : Table)
    (h : List.Forall₂ (fun a b => (∀ k, mapIndex a.Key k = mapIndex b.Key k) ∧
      a.Value = b.Value) es es') :
    renderRows ks es r0 t = renderRows ks es' r0 t := by
  induction h generalizing r0 t with
  | nil => rfl
  | cons hab _ ih =>
    simp only [renderRows]
    rw [rangeKeys_congr _ _ (fun kv => entryCell (mapIndex _ kv)) ks 0 0 t
      (fun k _ => by rw [hab.1 k]), hab.2, ih]

/-! ## Facts about Go maps and `sort.Strings` -/

/-- A key that a map does not hold indexes the empty string. -/
theorem mapIndex_of_not_mem (m : List (Str × Str)) (k : Str)
    (h : k ∉ m.map Prod.fst) : mapIndex m k = [] := by
  induction m with
  | nil => rfl
  | cons p m ih =>
    obtain ⟨k', v⟩ := p
    simp only [List.map_cons, List.mem_cons, not_or] at h
    simp only [mapIndex]
    rw [if_neg (fun hk => h.1 hk.symm)]
    exact ih h.2

/-- A key indexes the value it is stored with. -/
theorem mapIndex_of_mem (m : List (Str × Str)) (k v : Str)
    (hnd : (m.map Prod.fst).Nodup) (h : (k, v) ∈ m) : mapIndex m k = v := by
  induction m with
  | nil => simp at h
  | cons p m ih =>
    obtain ⟨k', v'⟩ := p
    simp only [List.map_cons, List.nodup_cons] at hnd
    simp only [mapIndex]
    rcases List.mem_cons.1 h with heq | hmem
    · cases heq
      simp
    · have hne : k' ≠ k := by
        intro hk
        apply hnd.1
        rw [hk]
        exact List.mem_map_of_mem Prod.fst hmem
      rw [if_neg hne]
      exact ih hnd.2 hmem

/-- Indexing a map does not depend on the order in which its entries are
listed. -/
theorem mapIndex_perm (m m' : List (Str × Str)) (k : Str)
    (hnd : (m.map Prod.fst).Nodup) (hp : m.Perm m') : mapIndex m k = mapIndex m' k := by
  have hnd' : (m'.map Prod.fst).Nodup := (hp.map Prod.fst).nodup_iff.1 hnd
  by_cases hk : k ∈ m.map Prod.fst
  · obtain ⟨p, hp1, hp2⟩ := List.mem_map.1 hk
    obtain ⟨k', v⟩ := p
    simp only at hp2
    subst hp2
    rw [mapIndex_of_mem m k' v hnd hp1, mapIndex_of_mem m' k' v hnd' (hp.subset hp1)]
  · have hk' : k ∉ m'.map Prod.fst := fun h => hk ((hp.map Prod.fst).symm.subset h)
    rw [mapIndex_of_not_mem m k hk, mapIndex_of_not_mem m' k hk']

/-- Go `sort.Strings` returns its input rearranged. -/
theorem sortStrings_perm (l : List Str) : (sortStrings l).Perm l :=
  List.perm_insertionSort _ l

/-- Go `sort.Strings` on distinct strings returns them strictly ascending. -/
theorem sortStrings_sorted (l : List Str) (h : l.Nodup) :
    (sortStrings l).Sorted (fun a b => a < b) :=
  (List.sorted_insertionSort (fun a b : Str => a ≤ b) l).lt_of_le
    ((sortStrings_perm l).nodup_iff.2 h)

/-- Go `sort.Strings` does not depend on the order of its input. -/
theorem sortStrings_eq_of_perm (l l' : List Str) (h : l.Perm l') :
    sortStrings l = sortStrings l' :=
  List.eq_of_perm_of_sorted
    (((sortStrings_perm l).trans h).trans (sortStrings_perm l').symm)
    (List.sorted_insertionSort (fun a b : Str => a ≤ b) l)
    (List.sorted_insertionSort (fun a b : Str => a ≤ b) l')

/-- Entries whose key maps agree up to the order of their entries agree on
every index. -/
theorem mapIndex_forall2_of_perm (es es' : List KvPair)
    (hK : ∀ e ∈ es, (e.Key.map Prod.fst).Nodup)
    (h : List.Forall₂ (fun a b => a.Key.Perm b.Key ∧ a.Value = b.Value) es es') :
    List.Forall₂ (fun a b => (∀ k, mapIndex a.Key k = mapIndex b.Key k) ∧
      a.Value = b.Value) es es' := by
  induction h with
  | nil => exact List.Forall₂.nil
  | cons hab _ ih =>
    refine List.Forall₂.cons ⟨fun k => ?_, hab.2⟩
      (ih (fun e he => hK e (List.mem_cons_of_mem _ he)))
    exact mapIndex_perm _ _ k (hK _ (List.mem_cons_self _ _)) hab.1

/-- What an update that is rendered leaves in `mapOfMaps`: the new hash and
entries, and the table with the header row and the entry rows set. -/
theorem watchStep_render (hash : List KvPair → Nat) (m : MapOfMaps) (r : MapEntries)
    (e0 : KvPair) (rest : List KvPair) (tbl : Table)
    (hEntries : r.Entries = e0 :: rest)
    (hHash : (m r.Name).Hash ≠ hash r.Entries)
    (hTable : (m r.Name).Table = some tbl) :
    watchStep hash m r = some (fun name =>
      if name = r.Name then
        { Hash := hash r.Entries
          Entries := r.Entries
          Table := some (renderRows (sortStrings (e0.Key.map Prod.fst)) r.Entries 0
            (SetCell (rangeKeys 0 headerCell (sortStrings (e0.Key.map Prod.fst)) 0 0 tbl).1 0
              (rangeKeys 0 headerCell (sortStrings (e0.Key.map Prod.fst)) 0 0 tbl).2
              (headerCell "value".toList))) }
      else m name) := by
  unfold watchStep
  rw [if_neg hHash]
  simp only [hEntries, hTable]

/-! ## C10: the layout of the table -/

/-- C10: for an update whose entries are non-empty and whose hash differs from
the stored one (the map has a table, and the keys of each key map are
distinct, as in any Go map), `Watch` leaves a table whose row 0 holds the
field names of the first entry's key, strictly ascending, in columns
`0..k-1` and `value` in column `k`, where `k` is the number of key fields, and
whose row `i + 1` holds the key values of entry `i` under those names, in the
same columns, and the entry's value in column `k`.  The same table results
when the key maps are iterated in any other order. -/
theorem watch_layout (hash : List KvPair → Nat) (m : MapOfMaps) (r : MapEntries)
    (e0 : KvPair) (rest : List KvPair) (tbl : Table)
    (hEntries : r.Entries = e0 :: rest)
    (hHash : (m r.Name).Hash ≠ hash r.Entries)
    (hTable : (m r.Name).Table = some tbl)
    (hKeys : ∀ e ∈ r.Entries, (e.Key.map Prod.fst).Nodup) :
    ∃ (m' : MapOfMaps) (tbl' : Table) (ks : List Str), watchStep hash m r = some m' ∧ (m' r.Name).Table = some tbl' ∧
      ks.Sorted (fun a b => a < b) ∧ ks.Perm (e0.Key.map Prod.fst) ∧
      ks.length = e0.Key.length ∧
      (∀ j (hj : j < ks.length), tbl' 0 j = some (headerCell ks[j])) ∧
      tbl' 0 ks.length = some (headerCell "value".toList) ∧
      (∀ i (hi : i < r.Entries.length),
        (∀ j (hj : j < ks.length),
          tbl' (i + 1) j = some (entryCell (mapIndex r.Entries[i].Key ks[j]))) ∧
        tbl' (i + 1) ks.length = some (entryCell r.Entries[i].Value)) ∧
      (∀ r' : MapEntries, r'.Name = r.Name →
        List.Forall₂ (fun a b => a.Key.Perm b.Key ∧ a.Value = b.Value) r.Entries r'.Entries →
        (m r.Name).Hash ≠ hash r'.Entries →
        ∃ m'', watchStep hash m r' = some m'' ∧ (m'' r.Name).Table = some tbl') := by
  have hnd0 : (e0.Key.map Prod.fst).Nodup := hKeys e0 (by rw [hEntries]; simp)
  refine ⟨_, renderRows (sortStrings (e0.Key.map Prod.fst)) r.Entries 0
      (SetCell (rangeKeys 0 headerCell (sortStrings (e0.Key.map Prod.fst)) 0 0 tbl).1 0
        (rangeKeys 0 headerCell (sortStrings (e0.Key.map Prod.fst)) 0 0 tbl).2
        (headerCell "value".toList)),
    sortStrings (e0.Key.map Prod.fst),
    watchStep_render hash m r e0 rest tbl hEntries hHash hTable, ?_,
    sortStrings_sorted _ hnd0, sortStrings_perm _, ?_, ?_, ?_, ?_, ?_⟩
  · simp
  · simpa using (sortStrings_perm (e0.Key.map Prod.fst)).length_eq
  · intro j hj
    rw [renderRows_frame _ _ _ _ _ _ (Nat.le_refl 0)]
    unfold SetCell
    rw [if_neg (by rw [rangeKeys_snd]; omega)]
    have := rangeKeys_cell 0 headerCell (sortStrings (e0.Key.map Prod.fst)) 0 0 tbl j hj
    simpa using this
  · rw [renderRows_frame _ _ _ _ _ _ (Nat.le_refl 0)]
    unfold SetCell
    rw [if_pos (by rw [rangeKeys_snd]; omega)]
  · intro i hi
    have := renderRows_cell (sortStrings (e0.Key.map Prod.fst)) r.Entries 0
      (SetCell (rangeKeys 0 headerCell (sortStrings (e0.Key.map Prod.fst)) 0 0 tbl).1 0
        (rangeKeys 0 headerCell (sortStrings (e0.Key.map Prod.fst)) 0 0 tbl).2
        (headerCell "value".toList)) i hi
    simpa using this
  · intro r' hName hPerm hHash'
    have hcongr := mapIndex_forall2_of_perm r.Entries r'.Entries hKeys hPerm
    rw [hEntries] at hPerm
    obtain ⟨e0', rest', h0, hrest, hEntries'⟩ := List.forall₂_cons_left_iff.1 hPerm
    have hks : sortStrings (e0'.Key.map Prod.fst) = sortStrings (e0.Key.map Prod.fst) :=
      sortStrings_eq_of_perm _ _ (h0.1.symm.map Prod.fst)
    have hHash'' : (m r'.Name).Hash ≠ hash r'.Entries := by rw [hName]; exact hHash'
    have hTable' : (m r'.Name).Table = some tbl := by rw [hName]; exact hTable
    refine ⟨_, watchStep_render hash m r' e0' rest' tbl hEntries' hHash'' hTable', ?_⟩
    rw [hName]
    simp only [if_true]
    rw [hks, ← renderRows_congr _ _ _ _ _ hcongr]

/-- C10 at the first update of the map `hits`, two entries whose key maps are
met in the orders `pid, comm` and `comm, pid`: the header is `comm pid
value` and the rows are `curl 42 7` and `sshd 1 3`. -/
theorem watch_layout_witness :
    ∃ (m' : MapOfMaps) (tbl' : Table) (ks : List Str), watchStep (fun es => es.length + 1) freshMaps hitsUpdate = some m' ∧
      (m' hitsUpdate.Name).Table = some tbl' ∧
      ks.Sorted (fun a b => a < b) ∧
      ks.Perm (List.map Prod.fst [("pid".toList, "42".toList), ("comm".toList, "curl".toList)]) ∧
      ks.length = 2 ∧
      (∀ j (hj : j < ks.length), tbl' 0 j = some (headerCell ks[j])) ∧
      tbl' 0 ks.length = some (headerCell "value".toList) ∧
      (∀ i (hi : i < hitsUpdate.Entries.length),
        (∀ j (hj : j < ks.length),
          tbl' (i + 1) j = some (entryCell (mapIndex hitsUpdate.Entries[i].Key ks[j]))) ∧
        tbl' (i + 1) ks.length = some (entryCell hitsUpdate.Entries[i].Value)) ∧
      (∀ r' : MapEntries, r'.Name = hitsUpdate.Name →
        List.Forall₂ (fun a b => a.Key.Perm b.Key ∧ a.Value = b.Value)
          hitsUpdate.Entries r'.Entries →
        (freshMaps hitsUpdate.Name).Hash ≠ (fun es => es.length + 1) r'.Entries →
        ∃ m'', watchStep (fun es => es.length + 1) freshMaps r' = some m'' ∧
          (m'' hitsUpdate.Name).Table = some tbl') :=
  watch_layout (fun es => es.length + 1) freshMaps hitsUpdate
    { Key := [("pid".toList, "42".toList), ("comm".toList, "curl".toList)]
      Value := "7".toList }
    [ { Key := [("comm".toList, "sshd".toList), ("pid".toList, "1".toList)]
        Value := "3".toList } ]
    newTable rfl (by decide) rfl (by decide)

/-! ## Facts about `Equal` -/

/-- Go `strings.Compare` differs from 0 exactly on different strings. -/
theorem stringsCompare_ne_zero_iff (a b : Str) : stringsCompare a b ≠ 0 ↔ a ≠ b := by
  unfold stringsCompare
  by_cases h : a = b
  · simp [h]
  · by_cases hlt : a < b <;> simp [h, hlt]

/-- The loop over the receiver's node selector runs to its end exactly when
every value of it is what the target's map yields at the same key. -/
theorem selectorLoop_eq_true_iff (target l : List (Str × Str)) :
    selectorLoop target l = true ↔ ∀ p ∈ l, p.2 = mapIndex target p.1 := by
  induction l with
  | nil => simp [selectorLoop]
  | cons p l ih =>
    obtain ⟨k, v⟩ := p
    unfold selectorLoop
    by_cases h : v = mapIndex target k
    · have h0 : ¬ stringsCompare v (mapIndex target k) ≠ 0 := by
        rw [stringsCompare_ne_zero_iff]; exact fun hn => hn h
      rw [if_neg h0, ih]
      simp [h]
    · have h0 : stringsCompare v (mapIndex target k) ≠ 0 :=
        (stringsCompare_ne_zero_iff _ _).2 h
      rw [if_pos h0]
      simp [h]

/-- What `Equal` computes on two non-nil specs: equal images, node selectors
of equal length, every value of the receiver's selector found at its key in
the target's, and equal pull policies. -/
theorem equal_eq_true_iff (a b : ProbeSpec) :
    ProbeSpec.Equal (some a) (That.pointer (some b)) = true ↔
      a.Image = b.Image ∧ a.NodeSelector.length = b.NodeSelector.length ∧
      (∀ p ∈ a.NodeSelector, p.2 = mapIndex b.NodeSelector p.1) ∧
      a.ImagePullPolicy = b.ImagePullPolicy := by
  unfold ProbeSpec.Equal equalTarget
  simp only []
  by_cases h1 : a.Image = b.Image
  · have c1 : ¬ stringsCompare a.Image b.Image ≠ 0 := by
      rw [stringsCompare_ne_zero_iff]; exact fun hn => hn h1
    rw [if_neg c1]
    by_cases h2 : a.NodeSelector.length = b.NodeSelector.length
    · rw [if_neg (fun hn => hn h2)]
      by_cases h3 : selectorLoop b.NodeSelector a.NodeSelector = true
      · have h3' := (selectorLoop_eq_true_iff _ _).1 h3
        rw [if_neg (by simp [h3])]
        by_cases h4 : a.ImagePullPolicy = b.ImagePullPolicy
        · rw [if_neg (fun hn => hn h4)]
          simp only [true_iff]
          exact ⟨h1, h2, h3', h4⟩
        · rw [if_pos h4]
          simp [h4]
      · have h3' : ¬ ∀ p ∈ a.NodeSelector, p.2 = mapIndex b.NodeSelector p.1 :=
          fun hn => h3 ((selectorLoop_eq_true_iff _ _).2 hn)
        rw [if_pos (by simpa using h3)]
        simp only [Bool.false_eq_true, false_iff]
        exact fun hn => h3' hn.2.2.1
    · rw [if_pos h2]
      simp [h2]
  · have c1 : stringsCompare a.Image b.Image ≠ 0 := (stringsCompare_ne_zero_iff _ _).2 h1
    rw [if_pos c1]
    simp [h1]

/-- On specs that are equal in the claim's sense `Equal` returns true. -/
theorem equal_of_same (a b : ProbeSpec)
    (ha : (a.NodeSelector.map Prod.fst).Nodup) (hb : (b.NodeSelector.map Prod.fst).Nodup)
    (hI : a.Image = b.Image) (hP : a.ImagePullPolicy = b.ImagePullPolicy)
    (hS : sameMap a.NodeSelector b.NodeSelector) :
    ProbeSpec.Equal (some a) (That.pointer (some b)) = true := by
  rw [equal_eq_true_iff]
  refine ⟨hI, ?_, ?_, hP⟩
  · have hperm : (a.NodeSelector.map Prod.fst).Perm (b.NodeSelector.map Prod.fst) :=
      (List.perm_ext_iff_of_nodup ha hb).2 hS.1
    simpa using hperm.length_eq
  · intro p hp
    have hk : p.1 ∈ a.NodeSelector.map Prod.fst := List.mem_map_of_mem Prod.fst hp
    rw [← hS.2 p.1 hk, mapIndex_of_mem a.NodeSelector p.1 p.2 ha hp]

/-- When no value of the receiver's node selector is the empty string, `Equal`
returns true on specs that are equal in the claim's sense only. -/
theorem same_of_equal (a b : ProbeSpec)
    (ha : (a.NodeSelector.map Prod.fst).Nodup)
    (hne : ∀ p ∈ a.NodeSelector, p.2 ≠ [])
    (h : ProbeSpec.Equal (some a) (That.pointer (some b)) = true) :
    a.Image = b.Image ∧ a.ImagePullPolicy = b.ImagePullPolicy ∧
      sameMap a.NodeSelector b.NodeSelector := by
  obtain ⟨hI, hlen, hloop, hP⟩ := (equal_eq_true_iff a b).1 h
  have hsub : a.NodeSelector.map Prod.fst ⊆ b.NodeSelector.map Prod.fst := by
    intro k hk
    obtain ⟨p, hp, rfl⟩ := List.mem_map.1 hk
    by_contra hnot
    have := hloop p hp
    rw [mapIndex_of_not_mem _ _ hnot] at this
    exact hne p hp this
  have hperm : (a.NodeSelector.map Prod.fst).Perm (b.NodeSelector.map Prod.fst) :=
    (ha.subperm hsub).perm_of_length_le (by simp [hlen])
  refine ⟨hI, hP, fun k => ⟨fun hk => hperm.subset hk, fun hk => hperm.symm.subset hk⟩, ?_⟩
  intro k hk
  obtain ⟨p, hp, rfl⟩ := List.mem_map.1 hk
  rw [← hloop p hp, mapIndex_of_mem a.NodeSelector p.1 p.2 ha hp]

/-! ## C11: `Equal` and equality of specs -/

/-- C11 at the failing input: the receiver selects the label `zone` with the
empty value, the argument the label `tier` with the value `db`, image and pull
policy being the same.  The node selectors are not equal as maps, `Equal`
returns true one way round and false the other. -/
theorem equal_not_symmetric :
    ProbeSpec.Equal (some zoneProbe) (That.pointer (some tierProbe)) = true ∧
    ProbeSpec.Equal (some tierProbe) (That.pointer (some zoneProbe)) = false ∧
    ¬ sameMap zoneProbe.NodeSelector tierProbe.NodeSelector := by
  refine ⟨by decide, by decide, ?_⟩
  intro h
  have hz := (h.1 "zone".toList).1 (by decide)
  revert hz
  decide

/-! ## Facts about `os.Create` in a run -/

/-- A run of `build` starts with the `os.Create` of the output path and makes
no other `os.Create`; a subprocess is started only once that call has
succeeded. -/
theorem build_trace_head (env : Env) (inputFile R : Str) (opts : BuildOptions) :
    (build env inputFile R opts).trace.head? =
      some (Event.create (outputPath opts inputFile)) ∧
    (∀ q, Event.create q ∉ (build env inputFile R opts).trace.tail) ∧
    (∀ site name args stdin,
      Event.exec site name args stdin ∈ (build env inputFile R opts).trace →
        env.create (outputPath opts inputFile) = none ∧
        Event.exec site name args stdin ∈ (build env inputFile R opts).trace.tail) := by
  unfold build
  simp only [compileStep, buildLocal, buildDocker, uberBranch, uberAfterDefer, buildUber]
  refine ⟨?_, ?_, ?_⟩
  · repeat' split
    all_goals rfl
  · intro q
    repeat' split
    all_goals simp
  · intro site name args stdin
    repeat' split
    all_goals simp_all

/-- Calls other than `os.Create` truncate nothing. -/
theorem truncatedPaths_of_no_create (env : Env) (l : List Event)
    (h : ∀ q, Event.create q ∉ l) : truncatedPaths env l = [] := by
  induction l with
  | nil => rfl
  | cons ev l ih =>
    have hl : ∀ q, Event.create q ∉ l := fun q hq => h q (List.mem_cons_of_mem _ hq)
    cases ev with
    | create p => exact absurd (List.mem_cons_self _ _) (h p)
    | _ => simpa [truncatedPaths] using ih hl

/-- A run of `build` whose `os.Create` succeeds truncates the output path and
nothing else. -/
theorem truncatedPaths_build (env : Env) (inputFile R : Str) (opts : BuildOptions)
    (hCreate : env.create (outputPath opts inputFile) = none) :
    truncatedPaths env (build env inputFile R opts).trace = [outputPath opts inputFile] := by
  obtain ⟨hhead, htail, -⟩ := build_trace_head env inputFile R opts
  have hcons : (build env inputFile R opts).trace =
      Event.create (outputPath opts inputFile) :: (build env inputFile R opts).trace.tail := by
    cases ht : (build env inputFile R opts).trace with
    | nil => rw [ht] at hhead; simp at hhead
    | cons ev l =>
      rw [ht] at hhead
      simp only [List.head?_cons, Option.some.injEq] at hhead
      rw [hhead, List.tail_cons]
  rw [hcons]
  simp only [truncatedPaths, hCreate, if_true]
  rw [truncatedPaths_of_no_create env _ htail]

/-! ## C12: an input file that is itself an object file -/

/-- C12: with `--output-file` blank the derived output path ends in `.o`, and
it is the input path exactly when the `filepath.Ext` extension of the input
path is `.o`; in exactly that case the `os.Create` of the output path, when it
succeeds, truncates the input file (a file being named by its path), and it
does so before any subprocess, the compiler included, is started. -/
theorem build_clobbers_object_input (env : Env) (inputFile R : Str) (opts : BuildOptions)
    (hBlank : opts.OutputFile = []) :
    ".o".toList <:+ outputPath opts inputFile ∧
    (outputPath opts inputFile = inputFile ↔ filepathExt inputFile = ".o".toList) ∧
    (env.create (outputPath opts inputFile) = none →
      (inputFile ∈ truncatedPaths env (build env inputFile R opts).trace ↔
        filepathExt inputFile = ".o".toList)) ∧
    (∀ site name args stdin,
      Event.exec site name args stdin ∈ (build env inputFile R opts).trace →
        env.create (outputPath opts inputFile) = none ∧
        ∃ rest, (build env inputFile R opts).trace =
            Event.create (outputPath opts inputFile) :: rest ∧
          Event.exec site name args stdin ∈ rest) := by
  obtain ⟨stem, hstem⟩ := filepathExt_suffix inputFile
  have htrim : stringsTrimSuffix inputFile (filepathExt inputFile) = stem := by
    have := stringsTrimSuffix_append stem (filepathExt inputFile)
    rwa [hstem] at this
  have hout : outputPath opts inputFile = stem ++ ".o".toList := by
    unfold outputPath
    rw [if_pos hBlank, htrim]
  have hiff : outputPath opts inputFile = inputFile ↔ filepathExt inputFile = ".o".toList := by
    rw [hout]
    constructor
    · intro h
      have h2 : stem ++ ".o".toList = stem ++ filepathExt inputFile := h.trans hstem.symm
      exact (List.append_cancel_left h2).symm
    · intro h
      rw [← h]
      exact hstem
  refine ⟨?_, hiff, ?_, ?_⟩
  · rw [hout]
    exact List.suffix_append _ _
  · intro hCreate
    rw [truncatedPaths_build env inputFile R opts hCreate, List.mem_singleton]
    exact ⟨fun h => hiff.1 h.symm, fun h => (hiff.2 h).symm⟩
  · intro site name args stdin h
    obtain ⟨hhead, -, hexec⟩ := build_trace_head env inputFile R opts
    obtain ⟨hC, hmem⟩ := hexec site name args stdin h
    refine ⟨hC, (build env inputFile R opts).trace.tail, ?_, hmem⟩
    cases ht : (build env inputFile R opts).trace with
    | nil => rw [ht] at hhead; simp at hhead
    | cons ev l =>
      rw [ht] at hhead
      simp only [List.head?_cons, Option.some.injEq] at hhead
      rw [hhead, List.tail_cons]

/-- C12 at `bee build prog.o local/foo:v1`: the output path is the input path
and the run truncates it; and at `foo.c`, which the run leaves alone. -/
theorem build_clobbers_object_input_witness :
    (".o".toList <:+ outputPath defaultOpts "prog.o".toList ∧
      (outputPath defaultOpts "prog.o".toList = "prog.o".toList ↔
        filepathExt "prog.o".toList = ".o".toList) ∧
      (okEnv.create (outputPath defaultOpts "prog.o".toList) = none →
        ("prog.o".toList ∈ truncatedPaths okEnv
            (build okEnv "prog.o".toList "local/foo:v1".toList defaultOpts).trace ↔
          filepathExt "prog.o".toList = ".o".toList)) ∧
      (∀ site name args stdin,
        Event.exec site name args stdin ∈
            (build okEnv "prog.o".toList "local/foo:v1".toList defaultOpts).trace →
          okEnv.create (outputPath defaultOpts "prog.o".toList) = none ∧
          ∃ rest, (build okEnv "prog.o".toList "local/foo:v1".toList defaultOpts).trace =
              Event.create (outputPath defaultOpts "prog.o".toList) :: rest ∧
            Event.exec site name args stdin ∈ rest)) ∧
    "prog.o".toList ∈ truncatedPaths okEnv
      (build okEnv "prog.o".toList "local/foo:v1".toList defaultOpts).trace ∧
    "foo.c".toList ∉ truncatedPaths okEnv
      (build okEnv "foo.c".toList "local/foo:v1".toList defaultOpts).trace :=
  ⟨build_clobbers_object_input okEnv "prog.o".toList "local/foo:v1".toList defaultOpts
      (by decide),
   by decide, by decide⟩

end Bumblebee
